import Mathlib

/-!
Verification development for the workflow execution engine of
`backoffice/backend/orchestrator.py` (classes `WorkflowStep`, `Workflow`,
`WorkflowExecution`, `WorkflowOrchestrator`).

The Python code is shallowly embedded as executable Lean functions:

* the agent network is abstracted as an oracle `Nat → Nat → AgentResponse`
  giving, for step index `i` and attempt number `a` (1-based), the response the
  HTTP layer would produce if a request were issued on that attempt;
* Python dicts with optional keys (`call_agent` results / step result records)
  become a structure with `Option`-typed fields, a missing key being `none`;
* `datetime.now()` values are abstracted to `Option Unit` (the claims only
  concern whether `start_time`/`end_time` are populated);
* the `while attempts < max_attempts` retry loop is written with an explicit
  fuel argument `fuel = max_attempts - attempts`, so the loop condition
  `attempts < max_attempts` becomes `0 < fuel`;
* `timestamp` and `raw_response` fields of successful results are omitted:
  no claim mentions them and nothing in the engine reads them back.
-/

namespace Orchestrator

/-- Response the HTTP layer would give for one `POST {url}/process/raw`
request: a parsed 2xx JSON body (whose `output` and `format` keys may each be
absent), a transport-level `httpx.HTTPError`, or any other exception raised
while performing or parsing the call. -/
inductive AgentResponse where
  | ok (output : Option String) (format : Option String)
  | httpError (msg : String)
  | unexpectedError (msg : String)
deriving Repr, DecidableEq

/-- The result dict built by `WorkflowOrchestrator.call_agent`
(orchestrator.py lines 167–209), later extended in `execute_workflow` with the
step metadata keys (lines 309–311).  Each `Option` field models a dict key
that may be absent. -/
structure CallResult where
  success : Bool
  agent : String
  output : Option String := none
  format : Option String := none
  error : Option String := none
  error_type : Option String := none
  step_name : Option String := none
  step_index : Option Nat := none
  attempts : Option Nat := none
deriving Repr, DecidableEq

/-- The `input` field of a step config: either a Python string (line 230's
`isinstance` test succeeds) or a non-string direct value carried by its
`str()` rendering (line 249). -/
inductive InputSource where
  | str (s : String)
  | direct (v : String)
deriving Repr, DecidableEq

/-- A `WorkflowStep` (orchestrator.py lines 16–28) restricted to the fields
the execution engine reads; `transform` and `condition` are read by nobody. -/
structure WorkflowStep where
  name : String := "unnamed-step"
  agent : String
  agent_url : Option String := none
  input_source : InputSource := .str "previous"
  timeout : Nat := 300
  retry : Nat := 0
  on_error : String := "stop"
deriving Repr, DecidableEq

/-- A `Workflow` (orchestrator.py lines 34–57): the engine only reads `name`
and the ordered `steps`. -/
structure Workflow where
  name : String := "unnamed-workflow"
  steps : List WorkflowStep
deriving Repr, DecidableEq

/-- The mutable `WorkflowExecution` record (orchestrator.py lines 60–72),
timestamps abstracted to presence markers. -/
structure WorkflowExecution where
  status : String
  current_step_index : Int
  step_results : List CallResult
  error : Option String
  start_time : Option Unit
  end_time : Option Unit
deriving Repr, DecidableEq

/-- One invocation of `call_agent` during a run: which step and attempt it
belonged to, the agent name, the input text sent, and whether an HTTP request
was actually issued (false exactly for registry misses). -/
structure CallEvent where
  step_index : Nat
  attempt : Nat
  agent : String
  input_text : String
  http_issued : Bool
deriving Repr, DecidableEq

/-- Python dict lookup `registry.get(name)` over an association list
(first binding wins). -/
def registryGet (registry : List (String × String)) (name : String) :
    Option String :=
  (registry.find? (fun p => p.1 = name)).map (fun p => p.2)

/-- The URL resolution of `call_agent` (line 166–167):
`url = agent_url or self.agent_registry.get(agent_name)` followed by the
falsiness test `if not url`.  Returns `none` exactly when the Python code
takes the registry-miss branch; Python's `or` and `not` treat the empty
string like `None`. -/
def effectiveUrl (registry : List (String × String)) (agent : String)
    (agent_url : Option String) : Option String :=
  let u : Option String :=
    match agent_url with
    | some v => if v = "" then registryGet registry agent else some v
    | none => registryGet registry agent
  match u with
  | some v => if v = "" then none else some v
  | none => none

/-- `WorkflowOrchestrator.call_agent` (orchestrator.py lines 146–209).
`net` is the response the HTTP layer would give if a request were issued.
The second component records whether an HTTP request was issued. -/
def call_agent (registry : List (String × String)) (agent_name : String)
    (_input_text : String) (agent_url : Option String) (net : AgentResponse) :
    CallResult × Bool :=
  match effectiveUrl registry agent_name agent_url with
  | none =>
    -- lines 167–172: no url resolves; note the dict has no "error_type" key
    ({ success := false, agent := agent_name,
       error := some ("Agent '" ++ agent_name ++ "' not found in registry") },
     false)
  | some _url =>
    match net with
    | .ok out fmt =>
      -- lines 185–194: result.get("output", ""), result.get("format", "text")
      ({ success := true, agent := agent_name,
         output := some (out.getD ""), format := some (fmt.getD "text") },
       true)
    | .httpError msg =>
      -- lines 196–202
      ({ success := false, agent := agent_name,
         error := some ("HTTP error: " ++ msg),
         error_type := some "http_error" }, true)
    | .unexpectedError msg =>
      -- lines 203–209
      ({ success := false, agent := agent_name,
         error := some ("Unexpected error: " ++ msg),
         error_type := some "unexpected_error" }, true)

/-- Drop leading and trailing whitespace from a character list (the implicit
strip that Python's `int(str)` performs). -/
def trimWs (cs : List Char) : List Char :=
  ((cs.dropWhile Char.isWhitespace).reverse.dropWhile Char.isWhitespace).reverse

/-- Decimal digit run as accepted by Python's `int`, continuing an
accumulator: digits, with single underscores allowed only between digits. -/
def pyDigitsCore : List Char → Nat → Option Nat
  | [], acc => some acc
  | c :: rest, acc =>
    if c.isDigit then pyDigitsCore rest (acc * 10 + (c.toNat - 48))
    else if c = '_' then
      match rest with
      | [] => none
      | d :: rest2 =>
        if d.isDigit then pyDigitsCore rest2 (acc * 10 + (d.toNat - 48))
        else none
    else none

/-- Nonempty decimal digit run (first character must be a digit). -/
def pyDigits? : List Char → Option Nat
  | [] => none
  | c :: rest => if c.isDigit then pyDigitsCore rest (c.toNat - 48) else none

/-- Python's `int(s)` on a decimal string: surrounding whitespace stripped, an
optional sign, then digits (with underscore grouping); `none` models the
`ValueError` that line 241 catches. -/
def pyInt? (cs0 : List Char) : Option Int :=
  match trimWs cs0 with
  | [] => none
  | c :: rest =>
    if c = '-' then (pyDigits? rest).map (fun n => -(n : Int))
    else if c = '+' then (pyDigits? rest).map (fun n => (n : Int))
    else (pyDigits? (c :: rest)).map (fun n => (n : Int))

/-- Decimal value of a digit string, folded left as Python's `int` does. -/
def decValue (ds : List Char) : Nat :=
  ds.foldl (fun a c => a * 10 + (c.toNat - 48)) 0

/-- `WorkflowOrchestrator._get_step_input` (orchestrator.py lines 211–249).
The `"step[...]"` arm slices `input_source[5:-1]` (drop the first five
characters and the trailing one) and parses it with `int`; `previous_output or
initial_input` is Python truthiness, so an empty previous output also falls
back to `initial_input`. -/
def _get_step_input (step : WorkflowStep) (initial_input : String)
    (previous_output : Option String) (step_results : List CallResult) :
    String :=
  match step.input_source with
  | .str s =>
    if s = "original" then initial_input
    else if s = "previous" then
      match previous_output with
      | some p => if p = "" then initial_input else p
      | none => initial_input
    else if s.toList.take 5 = "step[".toList then
      match pyInt? ((s.toList.drop 5).dropLast) with
      | some idx =>
        if h : 0 ≤ idx ∧ idx.toNat < step_results.length then
          ((step_results.get ⟨idx.toNat, h.2⟩).output).getD ""
        else initial_input
      | none => initial_input
    else s
  | .direct v => v

/-- Result of the retry loop: the final `step_result` (`none` iff the loop
body never ran, mirroring Python's `step_result = None`), the number of
attempts made, the list of backoff sleep durations in seconds, and one entry
`(attempt, http_issued)` per `call_agent` invocation, in order. -/
structure LoopResult where
  result : Option CallResult
  attempts : Nat
  sleeps : List Nat
  calls : List (Nat × Bool)
deriving Repr, DecidableEq

/-- The retry loop of `execute_workflow` (orchestrator.py lines 287–306):
`while attempts < max_attempts: attempts += 1; call; if success: break;
if attempts < max_attempts: sleep(2 ** attempts)`.  Written with
`fuel = max_attempts - attempts`, so both occurrences of
`attempts < max_attempts` become fuel positivity tests. -/
def attempt_loop (call : Nat → CallResult × Bool) :
    Nat → Nat → LoopResult
  | 0, attempts => ⟨none, attempts, [], []⟩
  | fuel + 1, attempts =>
    let a := attempts + 1
    let r := (call a).1
    let http := (call a).2
    if r.success = true then ⟨some r, a, [], [(a, http)]⟩
    else if 0 < fuel then
      let L := attempt_loop call fuel a
      ⟨L.result, L.attempts, 2 ^ a :: L.sleeps, (a, http) :: L.calls⟩
    else ⟨some r, a, [], [(a, http)]⟩

/-- Lines 309–311: attach `step_name`, `step_index`, `attempts` to the result
dict before appending it. -/
def attachMeta (r : CallResult) (step : WorkflowStep) (i A : Nat) :
    CallResult :=
  { r with
      step_name := some step.name
      step_index := some i
      attempts := some A }

/-- Rendering of `step_result.get('error')` inside the f-string of line 319:
a missing key prints as `None`. -/
def pyGetStr : Option String → String
  | some s => s
  | none => "None"

/-- The `for i, step in enumerate(workflow.steps)` loop of `execute_workflow`
(orchestrator.py lines 275–331), processing the steps from index `i` with the
threaded `current_output` value `cur`.  The `none` branch models the
`TypeError` Python would raise on `step_result["step_name"]` when the loop
body never ran, caught by the top-level handler (lines 333–336); it is
unreachable because `retry + 1 ≥ 1`.  The failure policy mirrors lines
316–327: `stop` returns immediately, `skip` continues without touching
`current_output`, anything else falls through to
`current_output = step_result.get("output", current_output)`. -/
def execLoop (registry : List (String × String))
    (oracle : Nat → Nat → AgentResponse) (initial_input : String) :
    List WorkflowStep → Nat → String → WorkflowExecution →
    WorkflowExecution × List CallEvent
  | [], _, _, exec =>
    ({ exec with status := "completed", end_time := some () }, [])
  | step :: rest, i, cur, exec =>
    let exec1 : WorkflowExecution :=
      { exec with current_step_index := (i : Int) }
    let step_input := _get_step_input step initial_input (some cur)
      exec1.step_results
    let L := attempt_loop
      (fun a => call_agent registry step.agent step_input step.agent_url
        (oracle i a))
      (step.retry + 1) 0
    let events : List CallEvent :=
      L.calls.map (fun p => ⟨i, p.1, step.agent, step_input, p.2⟩)
    match L.result with
    | none =>
      ({ exec1 with
          status := "failed",
          error := some "Workflow execution error: 'NoneType' object does not support item assignment",
          end_time := some () }, events)
    | some r =>
      let step_result := attachMeta r step i L.attempts
      let exec2 : WorkflowExecution :=
        { exec1 with step_results := exec1.step_results ++ [step_result] }
      if step_result.success = false ∧ step.on_error = "stop" then
        ({ exec2 with
            status := "failed",
            error := some ("Step '" ++ step.name ++ "' failed: "
              ++ pyGetStr step_result.error),
            end_time := some () }, events)
      else if step_result.success = false ∧ step.on_error = "skip" then
        let next := execLoop registry oracle initial_input rest (i + 1) cur
          exec2
        (next.1, events ++ next.2)
      else
        let next := execLoop registry oracle initial_input rest (i + 1)
          (step_result.output.getD cur) exec2
        (next.1, events ++ next.2)

/-- `WorkflowOrchestrator.execute_workflow` (orchestrator.py lines 251–338):
build the execution record, mark it running, thread
`current_output = initial_input` through the step loop.  Besides the final
`WorkflowExecution` it returns the list of `call_agent` invocations made, for
stating which agents were (not) called. -/
def execute_workflow (registry : List (String × String))
    (oracle : Nat → Nat → AgentResponse) (workflow : Workflow)
    (initial_input : String) : WorkflowExecution × List CallEvent :=
  let execution : WorkflowExecution :=
    { status := "running", current_step_index := -1, step_results := [],
      error := none, start_time := some (), end_time := none }
  execLoop registry oracle initial_input workflow.steps 0 initial_input
    execution

/-- Whether one attempt against `step` would succeed given the response the
HTTP layer would produce: the effective URL must resolve and the response
must be a parsed 2xx body.  `call_agent`'s success is exactly this and in
particular does not depend on the input text. -/
def attemptSucceeds (registry : List (String × String)) (agent : String)
    (agent_url : Option String) (resp : AgentResponse) : Bool :=
  match effectiveUrl registry agent agent_url, resp with
  | some _, .ok _ _ => true
  | _, _ => false

/-- Whether the retry loop for step index `i` would end in success: some
attempt within the budget `retry + 1` gets a successful response. -/
def stepEventuallySucceeds (registry : List (String × String))
    (oracle : Nat → Nat → AgentResponse) (i : Nat) (step : WorkflowStep) :
    Bool :=
  (List.range (step.retry + 1)).any
    (fun a => attemptSucceeds registry step.agent step.agent_url
      (oracle i (a + 1)))

/-- Whether step index `i` would make `execute_workflow` return early with
status `"failed"`: its policy is `"stop"` and every attempt fails. -/
def stepHalts (registry : List (String × String))
    (oracle : Nat → Nat → AgentResponse) (i : Nat) (step : WorkflowStep) :
    Bool :=
  decide (step.on_error = "stop")
    && ! stepEventuallySucceeds registry oracle i step

/-! ### Basic facts about `call_agent` -/

/-- Whether a `call_agent` invocation succeeds depends only on the URL
resolution and the network response, never on the input text. -/
theorem call_agent_success (registry : List (String × String))
    (agent : String) (input : String) (agent_url : Option String)
    (net : AgentResponse) :
    ((call_agent registry agent input agent_url net).1).success
      = attemptSucceeds registry agent agent_url net := by
  unfold call_agent attemptSucceeds
  cases effectiveUrl registry agent agent_url <;> cases net <;> rfl

/-- A failed `call_agent` result never carries an `output` key and always
carries an `error` message. -/
theorem call_agent_fail (registry : List (String × String))
    (agent : String) (input : String) (agent_url : Option String)
    (net : AgentResponse)
    (h : ((call_agent registry agent input agent_url net).1).success
      = false) :
    ((call_agent registry agent input agent_url net).1).output = none ∧
    ∃ msg, ((call_agent registry agent input agent_url net).1).error
      = some msg := by
  unfold call_agent at h ⊢
  cases hu : effectiveUrl registry agent agent_url <;> cases net <;>
    simp_all

/-! ### Characterization of the retry loop -/

/-- Full characterization of the retry loop started at `attempts = att` with
positive remaining fuel: the final `step_result` is the last call's result,
the calls made are numbered consecutively from `att + 1`, a backoff of `2 ^ a`
seconds follows every non-final attempt `a` (and none follows the final one),
every attempt before the final one failed, and the budget is exhausted
exactly when the final attempt failed. -/
theorem attempt_loop_spec (call : Nat → CallResult × Bool) :
    ∀ (fuel att : Nat), 0 < fuel →
    (attempt_loop call fuel att).result
        = some ((call (attempt_loop call fuel att).attempts).1) ∧
    att < (attempt_loop call fuel att).attempts ∧
    (attempt_loop call fuel att).attempts ≤ att + fuel ∧
    (attempt_loop call fuel att).sleeps
        = (List.range ((attempt_loop call fuel att).attempts - att - 1)).map
            (fun t => 2 ^ (att + t + 1)) ∧
    (attempt_loop call fuel att).calls
        = (List.range ((attempt_loop call fuel att).attempts - att)).map
            (fun t => (att + t + 1, (call (att + t + 1)).2)) ∧
    (∀ j, att < j → j < (attempt_loop call fuel att).attempts →
        ((call j).1).success = false) ∧
    (((call (attempt_loop call fuel att).attempts).1).success = false →
        (attempt_loop call fuel att).attempts = att + fuel) := by
  intro fuel
  induction fuel with
  | zero => intro att h; omega
  | succ f ih =>
    intro att _
    by_cases hs : ((call (att + 1)).1).success = true
    · have hL : attempt_loop call (f + 1) att
          = ⟨some ((call (att + 1)).1), att + 1, [],
             [(att + 1, (call (att + 1)).2)]⟩ := by
        simp [attempt_loop, hs]
      rw [hL]
      dsimp only
      refine ⟨rfl, by omega, by omega, by simp, by simp [List.range_succ],
        ?_, ?_⟩
      · intro j hj1 hj2; omega
      · intro hcontra; rw [hs] at hcontra; exact absurd hcontra (by simp)
    · have hs' : ((call (att + 1)).1).success = false := by
        simpa using hs
      by_cases hf : 0 < f
      · have hL : attempt_loop call (f + 1) att
            = ⟨(attempt_loop call f (att + 1)).result,
               (attempt_loop call f (att + 1)).attempts,
               2 ^ (att + 1) :: (attempt_loop call f (att + 1)).sleeps,
               (att + 1, (call (att + 1)).2)
                 :: (attempt_loop call f (att + 1)).calls⟩ := by
          simp [attempt_loop, hs', hf]
        obtain ⟨ih1, ih2, ih3, ih4, ih5, ih6, ih7⟩ := ih (att + 1) hf
        rw [hL]
        dsimp only
        refine ⟨ih1, by omega, by omega, ?_, ?_, ?_, ?_⟩
        · rw [ih4]
          have h2 : (attempt_loop call f (att + 1)).attempts - att - 1
              = ((attempt_loop call f (att + 1)).attempts - (att + 1) - 1)
                + 1 := by omega
          rw [h2, List.range_succ_eq_map, List.map_cons, List.map_map]
          refine congrArg₂ _ (by norm_num) ?_
          apply List.map_congr_left
          intro t _
          simp only [Function.comp]
          congr 1
          omega
        · rw [ih5]
          have h2 : (attempt_loop call f (att + 1)).attempts - att
              = ((attempt_loop call f (att + 1)).attempts - (att + 1))
                + 1 := by omega
          rw [h2, List.range_succ_eq_map, List.map_cons, List.map_map]
          refine congrArg₂ _ (by norm_num) ?_
          apply List.map_congr_left
          intro t _
          simp only [Function.comp]
          have h3 : att + 1 + t + 1 = att + (t + 1) + 1 := by omega
          rw [h3]
        · intro j hj1 hj2
          rcases Nat.lt_or_ge (att + 1) j with hgt | hle
          · exact ih6 j hgt hj2
          · have : j = att + 1 := by omega
            rw [this]; exact hs'
        · intro hfin
          have := ih7 hfin
          omega
      · have hf0 : f = 0 := by omega
        subst hf0
        have hL : attempt_loop call (0 + 1) att
            = ⟨some ((call (att + 1)).1), att + 1, [],
               [(att + 1, (call (att + 1)).2)]⟩ := by
          simp [attempt_loop, hs']
        rw [hL]
        dsimp only
        refine ⟨rfl, by omega, by omega, by simp, by simp [List.range_succ],
          ?_, ?_⟩
        · intro j hj1 hj2; omega
        · intro _; omega

/-- The retry loop of a step always produces a result (the fuel
`retry + 1` is positive), its success is `stepEventuallySucceeds`, and when
it fails it has no `output` and does have an `error`. -/
theorem step_loop_result (registry : List (String × String))
    (oracle : Nat → Nat → AgentResponse) (i : Nat) (step : WorkflowStep)
    (step_input : String) :
    ∃ R, (attempt_loop
        (fun a => call_agent registry step.agent step_input step.agent_url
          (oracle i a)) (step.retry + 1) 0).result = some R ∧
      R.success = stepEventuallySucceeds registry oracle i step ∧
      (R.success = false → R.output = none ∧ ∃ msg, R.error = some msg) := by
  set call := fun a => call_agent registry step.agent step_input
    step.agent_url (oracle i a) with hcall
  obtain ⟨h1, h2, h3, _, _, h6, h7⟩ :=
    attempt_loop_spec call (step.retry + 1) 0 (by omega)
  set A := (attempt_loop call (step.retry + 1) 0).attempts with hA
  refine ⟨(call A).1, h1, ?_, ?_⟩
  · have hcs : ∀ a, ((call a).1).success
        = attemptSucceeds registry step.agent step.agent_url (oracle i a) :=
      fun a => call_agent_success registry step.agent step_input
        step.agent_url (oracle i a)
    cases hses : stepEventuallySucceeds registry oracle i step with
    | true =>
      rw [stepEventuallySucceeds, List.any_eq_true] at hses
      obtain ⟨a, ha, hsa⟩ := hses
      rw [List.mem_range] at ha
      by_contra hne
      have hfalse : ((call A).1).success = false := by
        cases hs : ((call A).1).success
        · rfl
        · exact absurd hs hne
      have hAeq : A = step.retry + 1 := by
        have := h7 hfalse; omega
      have hle : a + 1 ≤ A := by omega
      rcases Nat.lt_or_ge (a + 1) A with hlt | hge
      · have := h6 (a + 1) (by omega) hlt
        rw [hcs] at this
        rw [this] at hsa
        exact absurd hsa (by simp)
      · have haA : a + 1 = A := by omega
        rw [haA] at hsa
        rw [← hcs A] at hsa
        rw [hsa] at hfalse
        exact absurd hfalse (by simp)
    | false =>
      have hall : ∀ a, a < step.retry + 1 →
          attemptSucceeds registry step.agent step.agent_url (oracle i (a + 1))
            = false := by
        intro a ha
        rw [stepEventuallySucceeds] at hses
        by_contra hne
        have : attemptSucceeds registry step.agent step.agent_url
            (oracle i (a + 1)) = true := by
          cases hx : attemptSucceeds registry step.agent step.agent_url
            (oracle i (a + 1))
          · exact absurd hx hne
          · rfl
        have : (List.range (step.retry + 1)).any
            (fun a => attemptSucceeds registry step.agent step.agent_url
              (oracle i (a + 1))) = true := by
          rw [List.any_eq_true]
          exact ⟨a, List.mem_range.mpr ha, this⟩
        rw [this] at hses
        exact absurd hses (by simp)
      have hA1 : 1 ≤ A := h2
      have hA2 : A ≤ step.retry + 1 := by omega
      have hfa := hall (A - 1) (by omega)
      have hA1' : A - 1 + 1 = A := by omega
      rw [hA1'] at hfa
      rw [hcs]
      exact hfa
  · intro hf
    exact call_agent_fail registry step.agent step_input step.agent_url
      (oracle i A) hf

/-- Unfolding of `execLoop` on a non-empty step list once the retry loop's
result is known to exist. -/
theorem execLoop_cons_eq (registry : List (String × String))
    (oracle : Nat → Nat → AgentResponse) (init : String)
    (step : WorkflowStep) (rest : List WorkflowStep) (i : Nat) (cur : String)
    (exec : WorkflowExecution) (R0 : CallResult)
    (hR0 : (attempt_loop
        (fun a => call_agent registry step.agent
          (_get_step_input step init (some cur) exec.step_results)
          step.agent_url (oracle i a)) (step.retry + 1) 0).result
      = some R0) :
    execLoop registry oracle init (step :: rest) i cur exec =
      (let step_input := _get_step_input step init (some cur)
         exec.step_results;
       let L := attempt_loop
         (fun a => call_agent registry step.agent step_input step.agent_url
           (oracle i a)) (step.retry + 1) 0;
       let events : List CallEvent :=
         L.calls.map (fun p => ⟨i, p.1, step.agent, step_input, p.2⟩);
       let step_result := attachMeta R0 step i L.attempts;
       let exec2 : WorkflowExecution :=
         { exec with
             current_step_index := (i : Int),
             step_results := exec.step_results ++ [step_result] };
       if step_result.success = false ∧ step.on_error = "stop" then
         ({ exec2 with
             status := "failed",
             error := some ("Step '" ++ step.name ++ "' failed: "
               ++ pyGetStr step_result.error),
             end_time := some () }, events)
       else if step_result.success = false ∧ step.on_error = "skip" then
         let next := execLoop registry oracle init rest (i + 1) cur exec2
         (next.1, events ++ next.2)
       else
         let next := execLoop registry oracle init rest (i + 1)
           (step_result.output.getD cur) exec2
         (next.1, events ++ next.2)) := by
  conv_lhs => rw [execLoop]
  dsimp only
  rw [hR0]

/-- When the head step has policy `"stop"` and all its attempts fail,
`execLoop` returns immediately: status `"failed"`, the step's error message,
a populated end time, exactly one more result record, and no event for any
later step. -/
theorem execLoop_cons_halt (registry : List (String × String))
    (oracle : Nat → Nat → AgentResponse) (init : String)
    (step : WorkflowStep) (rest : List WorkflowStep) (i : Nat) (cur : String)
    (exec : WorkflowExecution)
    (h : stepHalts registry oracle i step = true) :
    ∃ R EV,
      execLoop registry oracle init (step :: rest) i cur exec =
        ({ exec with
            current_step_index := (i : Int),
            step_results := exec.step_results ++ [R],
            status := "failed",
            error := some ("Step '" ++ step.name ++ "' failed: "
              ++ pyGetStr R.error),
            end_time := some () }, EV) ∧
      R.success = false ∧ R.step_index = some i ∧
      (∃ msg, R.error = some msg) ∧
      (∀ e ∈ EV, e.step_index = i) := by
  rw [stepHalts, Bool.and_eq_true] at h
  obtain ⟨hstop, hses⟩ := h
  rw [decide_eq_true_iff] at hstop
  rw [Bool.not_eq_true'] at hses
  obtain ⟨R0, hR0, hsucc, hfail⟩ := step_loop_result registry oracle i step
    (_get_step_input step init (some cur) exec.step_results)
  rw [hses] at hsucc
  obtain ⟨hout, msg, herr⟩ := hfail hsucc
  rw [execLoop_cons_eq registry oracle init step rest i cur exec R0 hR0]
  dsimp only
  refine ⟨attachMeta R0 step i (attempt_loop
      (fun a => call_agent registry step.agent
        (_get_step_input step init (some cur) exec.step_results)
        step.agent_url (oracle i a)) (step.retry + 1) 0).attempts,
    (attempt_loop
      (fun a => call_agent registry step.agent
        (_get_step_input step init (some cur) exec.step_results)
        step.agent_url (oracle i a)) (step.retry + 1) 0).calls.map
      (fun p => ⟨i, p.1, step.agent,
        _get_step_input step init (some cur) exec.step_results, p.2⟩),
    ?_, hsucc, rfl, ⟨msg, herr⟩, ?_⟩
  · rw [if_pos ⟨hsucc, hstop⟩]
  · intro e he
    rw [List.mem_map] at he
    obtain ⟨p, _, hp⟩ := he
    rw [← hp]

/-- When the head step does not make the workflow halt, `execLoop` appends
one result record for it and proceeds to the remaining steps; the threaded
`current_output` is unchanged whenever the step failed (skip policy, or the
fall-through update `step_result.get("output", current_output)` on a result
with no `output` key), and is the step's output when it succeeded. -/
theorem execLoop_cons_cont (registry : List (String × String))
    (oracle : Nat → Nat → AgentResponse) (init : String)
    (step : WorkflowStep) (rest : List WorkflowStep) (i : Nat) (cur : String)
    (exec : WorkflowExecution)
    (h : stepHalts registry oracle i step = false) :
    ∃ R EV cur2,
      execLoop registry oracle init (step :: rest) i cur exec =
        ((execLoop registry oracle init rest (i + 1) cur2
            { exec with
                current_step_index := (i : Int),
                step_results := exec.step_results ++ [R] }).1,
         EV ++ (execLoop registry oracle init rest (i + 1) cur2
            { exec with
                current_step_index := (i : Int),
                step_results := exec.step_results ++ [R] }).2) ∧
      R.success = stepEventuallySucceeds registry oracle i step ∧
      R.step_index = some i ∧
      (R.success = false → cur2 = cur ∧ R.output = none ∧
        ∃ msg, R.error = some msg) ∧
      (R.success = true → cur2 = R.output.getD cur) ∧
      (∀ e ∈ EV, e.step_index = i) := by
  obtain ⟨R0, hR0, hsucc, hfail⟩ := step_loop_result registry oracle i step
    (_get_step_input step init (some cur) exec.step_results)
  rw [execLoop_cons_eq registry oracle init step rest i cur exec R0 hR0]
  dsimp only
  have hmem : ∀ e ∈ (attempt_loop
      (fun a => call_agent registry step.agent
        (_get_step_input step init (some cur) exec.step_results)
        step.agent_url (oracle i a)) (step.retry + 1) 0).calls.map
      (fun p => (⟨i, p.1, step.agent,
        _get_step_input step init (some cur) exec.step_results, p.2⟩
          : CallEvent)),
      e.step_index = i := by
    intro e he
    rw [List.mem_map] at he
    obtain ⟨p, _, hp⟩ := he
    rw [← hp]
  cases hses : stepEventuallySucceeds registry oracle i step with
  | true =>
    rw [hses] at hsucc
    have hne : ¬ ((attachMeta R0 step i (attempt_loop
        (fun a => call_agent registry step.agent
          (_get_step_input step init (some cur) exec.step_results)
          step.agent_url (oracle i a)) (step.retry + 1) 0).attempts).success
        = false) := by
      simp [attachMeta, hsucc]
    rw [if_neg (fun hc => hne hc.1), if_neg (fun hc => hne hc.1)]
    refine ⟨attachMeta R0 step i _, _, R0.output.getD cur, rfl, hsucc, rfl,
      ?_, ?_, hmem⟩
    · intro hcontra
      exact absurd hcontra hne
    · intro _; rfl
  | false =>
    rw [hses] at hsucc
    rw [stepHalts, hses, Bool.not_false, Bool.and_true,
      decide_eq_false_iff_not] at h
    obtain ⟨hout, msg, herr⟩ := hfail hsucc
    have hcond1 : ¬ ((attachMeta R0 step i (attempt_loop
        (fun a => call_agent registry step.agent
          (_get_step_input step init (some cur) exec.step_results)
          step.agent_url (oracle i a)) (step.retry + 1) 0).attempts).success
          = false ∧ step.on_error = "stop") :=
      fun hc => h hc.2
    rw [if_neg hcond1]
    by_cases hskip : step.on_error = "skip"
    · rw [if_pos ⟨hsucc, hskip⟩]
      exact ⟨attachMeta R0 step i _, _, cur, rfl, hsucc, rfl,
        fun _ => ⟨rfl, hout, msg, herr⟩,
        fun hcontra => absurd (hsucc ▸ hcontra) (by simp), hmem⟩
    · rw [if_neg (fun hc => hskip hc.2)]
      refine ⟨attachMeta R0 step i _, _,
        (attachMeta R0 step i (attempt_loop
          (fun a => call_agent registry step.agent
            (_get_step_input step init (some cur) exec.step_results)
            step.agent_url (oracle i a)) (step.retry + 1) 0).attempts).output.getD cur,
        rfl, hsucc, rfl, ?_, fun _ => rfl, hmem⟩
      intro _
      refine ⟨?_, hout, msg, herr⟩
      have : (attachMeta R0 step i (attempt_loop
          (fun a => call_agent registry step.agent
            (_get_step_input step init (some cur) exec.step_results)
            step.agent_url (oracle i a)) (step.retry + 1) 0).attempts).output
          = none := hout
      rw [this]
      rfl

/-! ### Claim C2 -/

/-- C2, counterexample: on a registry miss (no URL override, agent absent
from the registry) the result dict has no `error_type` key at all, so it is
not `"registry_miss"` as the claim states. -/
theorem c2_counterexample :
    ¬ ((call_agent [] "ghost" "x" none (.httpError "boom")).1.error_type
        = some "registry_miss") := by
  decide

/-- C2, amended: when no URL override is given and the agent name has no
registry entry, the result has `success = false`, the error message
`Agent '<name>' not found in registry`, no `error_type` key, and no HTTP
request is issued. -/
theorem c2_registry_miss (registry : List (String × String))
    (name input : String) (net : AgentResponse)
    (h : registryGet registry name = none) :
    ((call_agent registry name input none net).1).success = false ∧
    ((call_agent registry name input none net).1).error
      = some ("Agent '" ++ name ++ "' not found in registry") ∧
    ((call_agent registry name input none net).1).error_type = none ∧
    (call_agent registry name input none net).2 = false := by
  have hu : effectiveUrl registry name none = none := by
    simp [effectiveUrl, h]
  simp [call_agent, hu]

/-- C2, witness: the amended statement at a concrete empty registry. -/
theorem c2_registry_miss_witness :
    ((call_agent [] "ghost" "x" none (.httpError "e")).1).success = false ∧
    ((call_agent [] "ghost" "x" none (.httpError "e")).1).error
      = some ("Agent '" ++ "ghost" ++ "' not found in registry") ∧
    ((call_agent [] "ghost" "x" none (.httpError "e")).1).error_type
      = none ∧
    (call_agent [] "ghost" "x" none (.httpError "e")).2 = false :=
  c2_registry_miss [] "ghost" "x" (.httpError "e") (by rfl)

/-! ### Claim C10 -/

/-- C10: with `input_source = "previous"` and an empty previous output, the
resolver returns `initial_input` (the fallback `previous_output or
initial_input` tests Python truthiness), exactly as it does when there is no
previous output at all. -/
theorem c10_previous_empty (step : WorkflowStep) (initial_input : String)
    (step_results : List CallResult)
    (h : step.input_source = .str "previous") :
    _get_step_input step initial_input (some "") step_results
      = initial_input ∧
    _get_step_input step initial_input none step_results = initial_input := by
  simp [_get_step_input, h]

/-- C10, witness: a concrete step reading `"previous"` with an empty
previous output resolves to the initial input. -/
theorem c10_previous_empty_witness :
    _get_step_input
      { name := "s", agent := "a", input_source := .str "previous" }
      "X" (some "") [] = "X" ∧
    _get_step_input
      { name := "s", agent := "a", input_source := .str "previous" }
      "X" none [] = "X" :=
  c10_previous_empty _ "X" [] rfl

/-! ### Claim C5 -/

/-- C5: for retry budget `r`, the loop makes between `1` and `r + 1` calls
(`calls.length = attempts`), its final `step_result` is the last call's
result, every attempt before the final one failed (so it stops at the first
success), the budget is fully used exactly when the final attempt fails, the
backoff sleeps are `2 ^ 1, …, 2 ^ (attempts - 1)` — one after each non-final
attempt and none after the final one — and the `attempts` count is recorded
in the result's `attempts` field by the metadata attachment. -/
theorem c5_retry_budget (call : Nat → CallResult × Bool) (r : Nat) :
    1 ≤ (attempt_loop call (r + 1) 0).attempts ∧
    (attempt_loop call (r + 1) 0).attempts ≤ r + 1 ∧
    (attempt_loop call (r + 1) 0).result
      = some ((call (attempt_loop call (r + 1) 0).attempts).1) ∧
    (attempt_loop call (r + 1) 0).calls.length
      = (attempt_loop call (r + 1) 0).attempts ∧
    (∀ j, 0 < j → j < (attempt_loop call (r + 1) 0).attempts →
      ((call j).1).success = false) ∧
    (((call (attempt_loop call (r + 1) 0).attempts).1).success = false →
      (attempt_loop call (r + 1) 0).attempts = r + 1) ∧
    (attempt_loop call (r + 1) 0).sleeps
      = (List.range ((attempt_loop call (r + 1) 0).attempts - 1)).map
          (fun t => 2 ^ (t + 1)) ∧
    (∀ step i R, (attempt_loop call (r + 1) 0).result = some R →
      (attachMeta R step i (attempt_loop call (r + 1) 0).attempts).attempts
        = some (attempt_loop call (r + 1) 0).attempts) := by
  obtain ⟨h1, h2, h3, h4, h5, h6, h7⟩ :=
    attempt_loop_spec call (r + 1) 0 (by omega)
  refine ⟨h2, by omega, h1, ?_, h6, by intro hx; have := h7 hx; omega, ?_,
    ?_⟩
  · rw [h5]
    simp
  · rw [h4]
    apply List.map_congr_left
    intro t _
    norm_num
  · intro step i R _
    rfl

/-- C5, witness: an always-failing agent with `retry = 2` is attempted
exactly `3` times, with backoff sleeps of `2` and `4` seconds. -/
theorem c5_retry_budget_witness :
    (attempt_loop (fun _ => ({ success := false, agent := "a" }, true))
      (2 + 1) 0).attempts = 2 + 1 ∧
    (attempt_loop (fun _ => ({ success := false, agent := "a" }, true))
      (2 + 1) 0).sleeps = [2, 4] := by
  obtain ⟨-, -, -, -, -, h6, h7, -⟩ :=
    c5_retry_budget (fun _ => ({ success := false, agent := "a" }, true)) 2
  have hA := h6 (by decide)
  refine ⟨hA, ?_⟩
  rw [h7, hA]
  decide

/-! ### Claim C1, counterexample -/

/-- C1, counterexample: in a three-step run where step `1` fails with
`on_error = "continue"`, the following `"previous"` step receives the output
of step `0` (`"A"`), not the failed step's output (the failed record carries
no `output` key at all), refuting the claim that `current_output` is updated
to the failed result's `output` field. -/
theorem c1_counterexample :
    ((execute_workflow [("a", "http://a")]
        (fun i _ => if i = 0 then .ok (some "A") none
          else if i = 1 then .httpError "boom" else .ok (some "B") none)
        { name := "w", steps := [
            { name := "s0", agent := "a", input_source := .str "original" },
            { name := "s1", agent := "a", input_source := .str "previous",
              on_error := "continue" },
            { name := "s2", agent := "a",
              input_source := .str "previous" } ] }
        "init").2.map (fun e => (e.step_index, e.input_text))
      = [(0, "init"), (1, "A"), (2, "A")]) ∧
    ((execute_workflow [("a", "http://a")]
        (fun i _ => if i = 0 then .ok (some "A") none
          else if i = 1 then .httpError "boom" else .ok (some "B") none)
        { name := "w", steps := [
            { name := "s0", agent := "a", input_source := .str "original" },
            { name := "s1", agent := "a", input_source := .str "previous",
              on_error := "continue" },
            { name := "s2", agent := "a",
              input_source := .str "previous" } ] }
        "init").1.step_results.map (fun r => r.output)
      = [some "A", none, some "B"]) ∧
    ¬ (("A" : String) = "") := by
  refine ⟨by decide, by decide, by decide⟩

/-! ### Structural invariants of the step loop -/

/-- The step loop always lands in a terminal status with a populated end
time, and every failed record it appends carries an error message. -/
theorem execLoop_capture (registry : List (String × String))
    (oracle : Nat → Nat → AgentResponse) (init : String)
    (steps : List WorkflowStep) :
    ∀ (i : Nat) (cur : String) (exec : WorkflowExecution),
      (∀ R ∈ exec.step_results, R.success = false →
        ∃ msg, R.error = some msg) →
      ((execLoop registry oracle init steps i cur exec).1.status
          = "completed"
        ∨ (execLoop registry oracle init steps i cur exec).1.status
          = "failed") ∧
      (execLoop registry oracle init steps i cur exec).1.end_time
        = some () ∧
      (∀ R ∈ (execLoop registry oracle init steps i cur exec).1.step_results,
        R.success = false → ∃ msg, R.error = some msg) := by
  induction steps with
  | nil =>
    intro i cur exec hcap
    exact ⟨Or.inl rfl, rfl, hcap⟩
  | cons step rest ih =>
    intro i cur exec hcap
    cases hH : stepHalts registry oracle i step with
    | true =>
      obtain ⟨R, EV, heq, hRs, _, hRerr, _⟩ :=
        execLoop_cons_halt registry oracle init step rest i cur exec hH
      rw [heq]
      refine ⟨Or.inr rfl, rfl, ?_⟩
      intro R' hR' hfail
      rcases List.mem_append.mp hR' with hold | hnew
      · exact hcap R' hold hfail
      · rw [List.mem_singleton] at hnew
        rw [hnew]
        exact hRerr
    | false =>
      obtain ⟨R, EV, cur2, heq, hsucc, _, hfailp, _, _⟩ :=
        execLoop_cons_cont registry oracle init step rest i cur exec hH
      rw [heq]
      apply ih
      intro R' hR' hfail
      rcases List.mem_append.mp hR' with hold | hnew
      · exact hcap R' hold hfail
      · rw [List.mem_singleton] at hnew
        subst hnew
        obtain ⟨-, -, hmsg⟩ := hfailp hfail
        exact hmsg

/-- One result record is appended per attempted step, so the recorded
`step_index` values are exactly `0, 1, …` and the final record count is
`current_step_index + 1`. -/
theorem execLoop_indices (registry : List (String × String))
    (oracle : Nat → Nat → AgentResponse) (init : String)
    (steps : List WorkflowStep) :
    ∀ (i : Nat) (cur : String) (exec : WorkflowExecution),
      exec.step_results.length = i →
      exec.step_results.map (fun r => r.step_index)
        = (List.range i).map some →
      exec.current_step_index = (i : Int) - 1 →
      ((execLoop registry oracle init steps i cur exec).1.step_results.map
          (fun r => r.step_index)
        = (List.range
            (execLoop registry oracle init steps i cur
              exec).1.step_results.length).map some) ∧
      (((execLoop registry oracle init steps i cur
          exec).1.step_results.length : Int)
        = (execLoop registry oracle init steps i cur
            exec).1.current_step_index + 1) := by
  induction steps with
  | nil =>
    intro i cur exec hlen hmap hcsi
    simp only [execLoop]
    refine ⟨by rw [hmap, hlen], ?_⟩
    rw [hlen, hcsi]
    omega
  | cons step rest ih =>
    intro i cur exec hlen hmap hcsi
    cases hH : stepHalts registry oracle i step with
    | true =>
      obtain ⟨R, EV, heq, _, hRidx, _, _⟩ :=
        execLoop_cons_halt registry oracle init step rest i cur exec hH
      rw [heq]
      dsimp only
      constructor
      · rw [List.map_append, hmap]
        simp only [List.map_cons, List.map_nil, hRidx, List.length_append,
          hlen, List.length_cons, List.length_nil, Nat.add_zero]
        rw [List.range_succ, List.map_append]
        rfl
      · simp only [List.length_append, hlen, List.length_cons,
          List.length_nil, Nat.add_zero]
        push_cast
        omega
    | false =>
      obtain ⟨R, EV, cur2, heq, _, hRidx, _, _, _⟩ :=
        execLoop_cons_cont registry oracle init step rest i cur exec hH
      rw [heq]
      apply ih
      · rw [List.length_append, hlen]
        rfl
      · rw [List.map_append, hmap]
        simp only [List.map_cons, List.map_nil, hRidx]
        rw [List.range_succ, List.map_append]
        rfl
      · push_cast
        omega

/-- The run ends `"failed"` exactly when some step, at its position, has
policy `"stop"` and would fail all of its attempts. -/
theorem execLoop_failed_iff (registry : List (String × String))
    (oracle : Nat → Nat → AgentResponse) (init : String)
    (steps : List WorkflowStep) :
    ∀ (i : Nat) (cur : String) (exec : WorkflowExecution),
      ((execLoop registry oracle init steps i cur exec).1.status = "failed")
        ↔ ∃ k, ∃ (hk : k < steps.length),
            stepHalts registry oracle (i + k) (steps.get ⟨k, hk⟩) = true := by
  induction steps with
  | nil =>
    intro i cur exec
    simp only [execLoop]
    constructor
    · intro h
      exact absurd h (by decide)
    · rintro ⟨k, hk, -⟩
      exact absurd hk (by simp)
  | cons step rest ih =>
    intro i cur exec
    cases hH : stepHalts registry oracle i step with
    | true =>
      obtain ⟨R, EV, heq, _, _, _, _⟩ :=
        execLoop_cons_halt registry oracle init step rest i cur exec hH
      rw [heq]
      constructor
      · intro _
        refine ⟨0, by simp, ?_⟩
        simpa using hH
      · intro _
        rfl
    | false =>
      obtain ⟨R, EV, cur2, heq, _, _, _, _, _⟩ :=
        execLoop_cons_cont registry oracle init step rest i cur exec hH
      rw [heq]
      dsimp only
      rw [ih]
      constructor
      · rintro ⟨k', hk', hh⟩
        refine ⟨k' + 1, by simpa using Nat.succ_lt_succ hk', ?_⟩
        have harith : i + (k' + 1) = i + 1 + k' := by omega
        rw [harith]
        simpa [List.get_eq_getElem] using hh
      · rintro ⟨k, hk, hh⟩
        cases k with
        | zero =>
          rw [Nat.add_zero] at hh
          simp only [List.get_eq_getElem, List.getElem_cons_zero] at hh
          rw [hH] at hh
          exact absurd hh (by decide)
        | succ k' =>
          have hk2 : k' < rest.length := by
            simp only [List.length_cons] at hk
            omega
          refine ⟨k', hk2, ?_⟩
          have harith : i + 1 + k' = i + (k' + 1) := by omega
          rw [harith]
          simpa [List.get_eq_getElem] using hh

/-- When the steps before position `k` do not halt the run and step `k`
does, the loop returns with status `"failed"`, step `k`'s error message, a
populated end time, exactly `k + 1` new result records, and no call event
beyond step `k`. -/
theorem execLoop_halt_at (registry : List (String × String))
    (oracle : Nat → Nat → AgentResponse) (init : String)
    (steps : List WorkflowStep) :
    ∀ (k : Nat) (hk : k < steps.length) (i : Nat) (cur : String)
      (exec : WorkflowExecution),
      (∀ j (hj : j < k), stepHalts registry oracle (i + j)
        (steps.get ⟨j, Nat.lt_trans hj hk⟩) = false) →
      stepHalts registry oracle (i + k) (steps.get ⟨k, hk⟩) = true →
      (execLoop registry oracle init steps i cur exec).1.status
        = "failed" ∧
      (∃ reason, (execLoop registry oracle init steps i cur exec).1.error
        = some ("Step '" ++ (steps.get ⟨k, hk⟩).name ++ "' failed: "
          ++ reason)) ∧
      (execLoop registry oracle init steps i cur exec).1.end_time
        = some () ∧
      (execLoop registry oracle init steps i cur exec).1.step_results.length
        = exec.step_results.length + (k + 1) ∧
      (∀ e ∈ (execLoop registry oracle init steps i cur exec).2,
        e.step_index ≤ i + k) := by
  induction steps with
  | nil =>
    intro k hk
    exact absurd hk (by simp)
  | cons step rest ih =>
    intro k hk i cur exec hreach hhalt
    cases k with
    | zero =>
      simp only [List.get_eq_getElem, List.getElem_cons_zero,
        Nat.add_zero] at hhalt
      obtain ⟨R, EV, heq, _, _, ⟨msg, hmsg⟩, hEV⟩ :=
        execLoop_cons_halt registry oracle init step rest i cur exec hhalt
      rw [heq]
      refine ⟨rfl, ⟨pyGetStr R.error, ?_⟩, rfl, ?_, ?_⟩
      · simp [List.get_eq_getElem]
      · dsimp only
        rw [List.length_append]
        rfl
      · intro e he
        rw [hEV e he]
        omega
    | succ k' =>
      have hH0 : stepHalts registry oracle i step = false := by
        have := hreach 0 (by omega)
        simpa using this
      obtain ⟨R, EV, cur2, heq, _, _, _, _, hEV⟩ :=
        execLoop_cons_cont registry oracle init step rest i cur exec hH0
      rw [heq]
      have hk' : k' < rest.length := by
        simpa using Nat.lt_of_succ_lt_succ hk
      have hreach' : ∀ j (hj : j < k'), stepHalts registry oracle (i + 1 + j)
          (rest.get ⟨j, Nat.lt_trans hj hk'⟩) = false := by
        intro j hj
        have := hreach (j + 1) (by omega)
        have harith : i + (j + 1) = i + 1 + j := by omega
        rw [harith] at this
        simpa [List.get_eq_getElem] using this
      have hhalt' : stepHalts registry oracle (i + 1 + k')
          (rest.get ⟨k', hk'⟩) = true := by
        have harith : i + 1 + k' = i + (k' + 1) := by omega
        rw [harith]
        simpa [List.get_eq_getElem] using hhalt
      obtain ⟨ih1, ⟨reason, ih2⟩, ih3, ih4, ih5⟩ :=
        ih k' hk' (i + 1) cur2
          { exec with
              current_step_index := (i : Int),
              step_results := exec.step_results ++ [R] }
          hreach' hhalt'
      refine ⟨ih1, ⟨reason, ?_⟩, ih3, ?_, ?_⟩
      · rw [ih2]
        simp [List.get_eq_getElem]
      · rw [ih4]
        dsimp only
        rw [List.length_append]
        simp only [List.length_cons, List.length_nil]
        omega
      · intro e he
        rcases List.mem_append.mp he with hev | hrec
        · rw [hEV e hev]
          omega
        · have := ih5 e hrec
          omega

/-- A step halts the run exactly when its policy is `"stop"` and no attempt
within its budget would succeed. -/
theorem stepHalts_iff (registry : List (String × String))
    (oracle : Nat → Nat → AgentResponse) (i : Nat) (step : WorkflowStep) :
    stepHalts registry oracle i step = true ↔
      (step.on_error = "stop" ∧
        stepEventuallySucceeds registry oracle i step = false) := by
  rw [stepHalts, Bool.and_eq_true, decide_eq_true_iff, Bool.not_eq_true']

/-! ### Claim C8 -/

/-- C8: `execute_workflow` always returns a terminal execution — status
`"completed"` or `"failed"` with `end_time` populated — and every failed
step's error is captured in its result record (it carries an error message)
rather than being thrown past the orchestrator boundary. -/
theorem c8_always_terminal (registry : List (String × String))
    (oracle : Nat → Nat → AgentResponse) (wf : Workflow) (init : String) :
    ((execute_workflow registry oracle wf init).1.status = "completed" ∨
     (execute_workflow registry oracle wf init).1.status = "failed") ∧
    (execute_workflow registry oracle wf init).1.end_time = some () ∧
    (∀ R ∈ (execute_workflow registry oracle wf init).1.step_results,
      R.success = false → ∃ msg, R.error = some msg) := by
  simp only [execute_workflow]
  refine execLoop_capture registry oracle init wf.steps 0 init _ ?_
  intro R hR
  exact absurd hR (List.not_mem_nil R)

/-- C8, witness: a concrete run (a failing agent under `"continue"`) ends in
a terminal status with a populated end time and captured error. -/
theorem c8_always_terminal_witness :
    ((execute_workflow [("a", "http://a")] (fun _ _ => .httpError "down")
        { name := "w", steps := [
            { name := "s0", agent := "a", on_error := "continue" } ] }
        "x").1.status = "completed" ∨
     (execute_workflow [("a", "http://a")] (fun _ _ => .httpError "down")
        { name := "w", steps := [
            { name := "s0", agent := "a", on_error := "continue" } ] }
        "x").1.status = "failed") ∧
    (execute_workflow [("a", "http://a")] (fun _ _ => .httpError "down")
        { name := "w", steps := [
            { name := "s0", agent := "a", on_error := "continue" } ] }
        "x").1.end_time = some () ∧
    (∀ R ∈ (execute_workflow [("a", "http://a")]
        (fun _ _ => .httpError "down")
        { name := "w", steps := [
            { name := "s0", agent := "a", on_error := "continue" } ] }
        "x").1.step_results,
      R.success = false → ∃ msg, R.error = some msg) :=
  c8_always_terminal [("a", "http://a")] (fun _ _ => .httpError "down")
    { name := "w", steps := [
        { name := "s0", agent := "a", on_error := "continue" } ] } "x"

/-! ### Claim C9 -/

/-- C9: after a run, `step_results` holds exactly one record per attempted
step (including skip-policy failures), with `step_index` fields
`0, 1, …, n - 1` in order, and the record count equals
`current_step_index + 1`. -/
theorem c9_step_indices (registry : List (String × String))
    (oracle : Nat → Nat → AgentResponse) (wf : Workflow) (init : String) :
    ((execute_workflow registry oracle wf init).1.step_results.map
        (fun r => r.step_index)
      = (List.range
          (execute_workflow registry oracle wf
            init).1.step_results.length).map some) ∧
    (((execute_workflow registry oracle wf
        init).1.step_results.length : Int)
      = (execute_workflow registry oracle wf
          init).1.current_step_index + 1) := by
  simp only [execute_workflow]
  exact execLoop_indices registry oracle init wf.steps 0 init _ rfl rfl
    (by decide)

/-! ### Claim C7 -/

/-- C7: the terminal status is `"failed"` iff some step whose policy is
`"stop"` would fail every attempt within its retry budget. -/
theorem c7_failed_iff_stop (registry : List (String × String))
    (oracle : Nat → Nat → AgentResponse) (wf : Workflow) (init : String) :
    ((execute_workflow registry oracle wf init).1.status = "failed") ↔
      ∃ k, ∃ (hk : k < wf.steps.length),
        (wf.steps.get ⟨k, hk⟩).on_error = "stop" ∧
        stepEventuallySucceeds registry oracle k (wf.steps.get ⟨k, hk⟩)
          = false := by
  have h := execLoop_failed_iff registry oracle init wf.steps 0 init
    { status := "running", current_step_index := -1, step_results := [],
      error := none, start_time := some (), end_time := none }
  simp only [stepHalts_iff, Nat.zero_add] at h
  exact h

/-- C7, witness: a one-step workflow whose only step has policy `"stop"` and
an always-failing agent ends with status `"failed"`. -/
theorem c7_failed_iff_stop_witness :
    (execute_workflow [("a", "http://a")] (fun _ _ => .httpError "down")
        { name := "w", steps := [{ name := "s0", agent := "a" }] }
        "x").1.status = "failed" :=
  (c7_failed_iff_stop [("a", "http://a")] (fun _ _ => .httpError "down")
      { name := "w", steps := [{ name := "s0", agent := "a" }] } "x").mpr
    ⟨0, by decide, by decide, by decide⟩

/-! ### Claim C3 -/

/-- C3: if the workflow reaches step `k` (no earlier step halts it), that
step's policy is `"stop"`, and every one of its attempts fails, then
`execute_workflow` returns immediately: status `"failed"`, error
`Step '<name>' failed: <reason>`, `end_time` populated, exactly `k + 1`
entries in `step_results`, and no agent call for any step after `k`. -/
theorem c3_stop_halts (registry : List (String × String))
    (oracle : Nat → Nat → AgentResponse) (wf : Workflow) (init : String)
    (k : Nat) (hk : k < wf.steps.length)
    (hstop : (wf.steps.get ⟨k, hk⟩).on_error = "stop")
    (hfails : stepEventuallySucceeds registry oracle k
      (wf.steps.get ⟨k, hk⟩) = false)
    (hreach : ∀ j (hj : j < k), stepHalts registry oracle j
      (wf.steps.get ⟨j, Nat.lt_trans hj hk⟩) = false) :
    (execute_workflow registry oracle wf init).1.status = "failed" ∧
    (∃ reason, (execute_workflow registry oracle wf init).1.error
      = some ("Step '" ++ (wf.steps.get ⟨k, hk⟩).name ++ "' failed: "
        ++ reason)) ∧
    (execute_workflow registry oracle wf init).1.end_time = some () ∧
    (execute_workflow registry oracle wf init).1.step_results.length
      = k + 1 ∧
    (∀ e ∈ (execute_workflow registry oracle wf init).2,
      e.step_index ≤ k) := by
  have hhalt : stepHalts registry oracle (0 + k) (wf.steps.get ⟨k, hk⟩)
      = true := by
    rw [Nat.zero_add, stepHalts_iff]
    exact ⟨hstop, hfails⟩
  have hreach0 : ∀ j (hj : j < k), stepHalts registry oracle (0 + j)
      (wf.steps.get ⟨j, Nat.lt_trans hj hk⟩) = false := by
    intro j hj
    rw [Nat.zero_add]
    exact hreach j hj
  obtain ⟨h1, h2, h3, h4, h5⟩ := execLoop_halt_at registry oracle init
    wf.steps k hk 0 init
    { status := "running", current_step_index := -1, step_results := [],
      error := none, start_time := some (), end_time := none }
    hreach0 hhalt
  refine ⟨h1, h2, h3, by simpa using h4, ?_⟩
  intro e he
  have := h5 e he
  omega

/-- C3, witness: a two-step workflow whose first step has policy `"stop"`
and always fails ends failed with exactly one result record and no call for
step `1`. -/
theorem c3_stop_halts_witness :
    (execute_workflow [("a", "http://a"), ("b", "http://b")]
        (fun _ _ => .httpError "down")
        { name := "w", steps := [
            { name := "s0", agent := "a" },
            { name := "s1", agent := "b" } ] }
        "x").1.status = "failed" ∧
    (execute_workflow [("a", "http://a"), ("b", "http://b")]
        (fun _ _ => .httpError "down")
        { name := "w", steps := [
            { name := "s0", agent := "a" },
            { name := "s1", agent := "b" } ] }
        "x").1.step_results.length = 0 + 1 ∧
    (∀ e ∈ (execute_workflow [("a", "http://a"), ("b", "http://b")]
        (fun _ _ => .httpError "down")
        { name := "w", steps := [
            { name := "s0", agent := "a" },
            { name := "s1", agent := "b" } ] }
        "x").2, e.step_index ≤ 0) := by
  obtain ⟨h1, -, -, h4, h5⟩ := c3_stop_halts
    [("a", "http://a"), ("b", "http://b")] (fun _ _ => .httpError "down")
    { name := "w", steps := [
        { name := "s0", agent := "a" },
        { name := "s1", agent := "b" } ] }
    "x" 0 (by decide) (by decide) (by decide)
    (fun j hj => absurd hj (Nat.not_lt_zero j))
  exact ⟨h1, h4, h5⟩

/-! ### Claim C4 -/

/-- C4: a step that fails all its attempts under policy `"skip"` leaves the
threaded `current_output` unchanged — the loop continues on the remaining
steps with the same `cur`, so a later `"previous"` step reads the last
successful output (or the initial input), never the skipped step's missing
output. -/
theorem c4_skip_preserves_output (registry : List (String × String))
    (oracle : Nat → Nat → AgentResponse) (init : String)
    (step : WorkflowStep) (rest : List WorkflowStep) (i : Nat) (cur : String)
    (exec : WorkflowExecution)
    (hfail : stepEventuallySucceeds registry oracle i step = false)
    (hskip : step.on_error = "skip") :
    ∃ R EV,
      R.success = false ∧
      execLoop registry oracle init (step :: rest) i cur exec =
        ((execLoop registry oracle init rest (i + 1) cur
            { exec with
                current_step_index := (i : Int),
                step_results := exec.step_results ++ [R] }).1,
         EV ++ (execLoop registry oracle init rest (i + 1) cur
            { exec with
                current_step_index := (i : Int),
                step_results := exec.step_results ++ [R] }).2) := by
  have hH : stepHalts registry oracle i step = false := by
    rw [stepHalts, hskip]
    simp
  obtain ⟨R, EV, cur2, heq, hsucc, -, hfailp, -, -⟩ :=
    execLoop_cons_cont registry oracle init step rest i cur exec hH
  rw [hfail] at hsucc
  obtain ⟨hcur2, -, -⟩ := hfailp hsucc
  subst hcur2
  exact ⟨R, EV, hsucc, heq⟩

/-- C4, witness: the skip scenario at a concrete step (previous output
`"A"`, failing agent, `on_error = "skip"`): the loop proceeds with `"A"`
unchanged. -/
theorem c4_skip_preserves_output_witness :
    ∃ R EV,
      R.success = false ∧
      execLoop [("a", "http://a")] (fun _ _ => .httpError "down") "init"
        [{ name := "s1", agent := "a", on_error := "skip" },
         { name := "s2", agent := "a", input_source := .str "previous" }]
        1 "A"
        { status := "running", current_step_index := 0,
          step_results := [{ success := true, agent := "a", output := some "A" }],
          error := none, start_time := some (), end_time := none } =
        ((execLoop [("a", "http://a")] (fun _ _ => .httpError "down") "init"
            [{ name := "s2", agent := "a", input_source := .str "previous" }]
            (1 + 1) "A"
            { status := "running", current_step_index := (1 : Int),
              step_results := [{ success := true, agent := "a", output := some "A" }] ++ [R],
              error := none, start_time := some (),
              end_time := none }).1,
         EV ++ (execLoop [("a", "http://a")] (fun _ _ => .httpError "down")
            "init"
            [{ name := "s2", agent := "a", input_source := .str "previous" }]
            (1 + 1) "A"
            { status := "running", current_step_index := (1 : Int),
              step_results := [{ success := true, agent := "a", output := some "A" }] ++ [R],
              error := none, start_time := some (),
              end_time := none }).2) :=
  c4_skip_preserves_output [("a", "http://a")]
    (fun _ _ => .httpError "down") "init"
    { name := "s1", agent := "a", on_error := "skip" }
    [{ name := "s2", agent := "a", input_source := .str "previous" }]
    1 "A"
    { status := "running", current_step_index := 0,
      step_results := [{ success := true, agent := "a", output := some "A" }],
      error := none, start_time := some (), end_time := none }
    (by decide) rfl

/-! ### Claim C1, amended -/

/-- C1, amended: a step that fails all its attempts with `on_error` equal to
`"continue"` (or any value other than `"stop"`/`"skip"`) lets the loop
proceed to the next step, but since failed results carry no `output` key,
the update `step_result.get("output", current_output)` leaves
`current_output` unchanged — the next `"previous"` step receives the last
successful output (or the initial input), not an empty failed output. -/
theorem c1_continue_keeps_output (registry : List (String × String))
    (oracle : Nat → Nat → AgentResponse) (init : String)
    (step : WorkflowStep) (rest : List WorkflowStep) (i : Nat) (cur : String)
    (exec : WorkflowExecution)
    (hfail : stepEventuallySucceeds registry oracle i step = false)
    (hstop : ¬ step.on_error = "stop") (_hskip : ¬ step.on_error = "skip") :
    ∃ R EV,
      R.success = false ∧ R.output = none ∧
      execLoop registry oracle init (step :: rest) i cur exec =
        ((execLoop registry oracle init rest (i + 1) cur
            { exec with
                current_step_index := (i : Int),
                step_results := exec.step_results ++ [R] }).1,
         EV ++ (execLoop registry oracle init rest (i + 1) cur
            { exec with
                current_step_index := (i : Int),
                step_results := exec.step_results ++ [R] }).2) := by
  have hH : stepHalts registry oracle i step = false := by
    rw [stepHalts, decide_eq_false hstop]
    simp
  obtain ⟨R, EV, cur2, heq, hsucc, -, hfailp, -, -⟩ :=
    execLoop_cons_cont registry oracle init step rest i cur exec hH
  rw [hfail] at hsucc
  obtain ⟨hcur2, hout, -⟩ := hfailp hsucc
  subst hcur2
  exact ⟨R, EV, hsucc, hout, heq⟩

/-- C1, amended witness: the continue scenario at a concrete step (previous
output `"A"`, failing agent, `on_error = "continue"`): the loop proceeds
with `"A"` unchanged and the failed record has no output. -/
theorem c1_continue_keeps_output_witness :
    ∃ R EV,
      R.success = false ∧ R.output = none ∧
      execLoop [("a", "http://a")] (fun _ _ => .httpError "down") "init"
        [{ name := "s1", agent := "a", on_error := "continue" },
         { name := "s2", agent := "a", input_source := .str "previous" }]
        1 "A"
        { status := "running", current_step_index := 0,
          step_results := [{ success := true, agent := "a", output := some "A" }],
          error := none, start_time := some (), end_time := none } =
        ((execLoop [("a", "http://a")] (fun _ _ => .httpError "down") "init"
            [{ name := "s2", agent := "a", input_source := .str "previous" }]
            (1 + 1) "A"
            { status := "running", current_step_index := (1 : Int),
              step_results := [{ success := true, agent := "a", output := some "A" }] ++ [R],
              error := none, start_time := some (),
              end_time := none }).1,
         EV ++ (execLoop [("a", "http://a")] (fun _ _ => .httpError "down")
            "init"
            [{ name := "s2", agent := "a", input_source := .str "previous" }]
            (1 + 1) "A"
            { status := "running", current_step_index := (1 : Int),
              step_results := [{ success := true, agent := "a", output := some "A" }] ++ [R],
              error := none, start_time := some (),
              end_time := none }).2) :=
  c1_continue_keeps_output [("a", "http://a")]
    (fun _ _ => .httpError "down") "init"
    { name := "s1", agent := "a", on_error := "continue" }
    [{ name := "s2", agent := "a", input_source := .str "previous" }]
    1 "A"
    { status := "running", current_step_index := 0,
      step_results := [{ success := true, agent := "a", output := some "A" }],
      error := none, start_time := some (), end_time := none }
    (by decide) (by decide) (by decide)

/-! ### Claim C6: decimal parsing and `step[<n>]` resolution -/

/-- A decimal digit is not whitespace. -/
theorem digit_not_ws (c : Char) (h : c.isDigit = true) :
    c.isWhitespace = false := by
  have h1 : ¬ (c = ' ') := by intro he; subst he; exact absurd h (by decide)
  have h2 : ¬ (c = '\t') := by intro he; subst he; exact absurd h (by decide)
  have h3 : ¬ (c = '\r') := by intro he; subst he; exact absurd h (by decide)
  have h4 : ¬ (c = '\n') := by intro he; subst he; exact absurd h (by decide)
  simp [Char.isWhitespace, h1, h2, h3, h4]

/-- A decimal digit differs from any non-digit character. -/
theorem digit_ne (c : Char) (h : c.isDigit = true) (d : Char)
    (hd : d.isDigit = false) : ¬ (c = d) := by
  intro he
  rw [he] at h
  rw [h] at hd
  exact absurd hd (by simp)

/-- `dropWhile` is the identity on a list none of whose elements satisfy the
predicate. -/
theorem dropWhile_no (p : Char → Bool) : ∀ (cs : List Char),
    (∀ c ∈ cs, p c = false) → cs.dropWhile p = cs
  | [], _ => rfl
  | c :: rest, h => by
    rw [List.dropWhile_cons, h c (List.mem_cons_self c rest)]
    simp

/-- Whitespace trimming is the identity on whitespace-free strings. -/
theorem trimWs_no_ws (cs : List Char)
    (h : ∀ c ∈ cs, c.isWhitespace = false) : trimWs cs = cs := by
  rw [trimWs, dropWhile_no _ cs h,
    dropWhile_no _ cs.reverse (fun c hc => h c (List.mem_reverse.mp hc))]
  exact List.reverse_reverse cs

/-- On an all-digit run the accumulator recursion computes the left fold. -/
theorem pyDigitsCore_digits : ∀ (ds : List Char) (acc : Nat),
    (∀ c ∈ ds, c.isDigit = true) →
    pyDigitsCore ds acc
      = some (ds.foldl (fun a c => a * 10 + (c.toNat - 48)) acc)
  | [], _, _ => rfl
  | c :: rest, acc, h => by
    have hc := h c (List.mem_cons_self c rest)
    rw [pyDigitsCore.eq_def]
    dsimp only
    rw [if_pos hc, List.foldl_cons]
    exact pyDigitsCore_digits rest _
      (fun x hx => h x (List.mem_cons_of_mem c hx))

/-- A nonempty all-digit run parses to its decimal value. -/
theorem pyDigits?_digits (ds : List Char) (hne : ds ≠ [])
    (h : ∀ c ∈ ds, c.isDigit = true) :
    pyDigits? ds = some (decValue ds) := by
  cases ds with
  | nil => exact absurd rfl hne
  | cons c rest =>
    have hc := h c (List.mem_cons_self c rest)
    simp only [pyDigits?]
    rw [if_pos hc,
      pyDigitsCore_digits rest _
        (fun x hx => h x (List.mem_cons_of_mem c hx)),
      decValue, List.foldl_cons]
    norm_num

/-- Python's `int` on a nonempty all-digit string returns its decimal
value. -/
theorem pyInt?_digits (ds : List Char) (hne : ds ≠ [])
    (h : ∀ c ∈ ds, c.isDigit = true) :
    pyInt? ds = some ((decValue ds : Int)) := by
  simp only [pyInt?]
  rw [trimWs_no_ws ds (fun c hc => digit_not_ws c (h c hc))]
  cases ds with
  | nil => exact absurd rfl hne
  | cons c rest =>
    have hc := h c (List.mem_cons_self c rest)
    dsimp only
    rw [if_neg (digit_ne c hc '-' (by decide)),
      if_neg (digit_ne c hc '+' (by decide)),
      pyDigits?_digits (c :: rest) hne h]
    rfl

/-- Python's `int` on a minus sign followed by digits returns the negated
decimal value. -/
theorem pyInt?_neg_digits (ds : List Char) (hne : ds ≠ [])
    (h : ∀ c ∈ ds, c.isDigit = true) :
    pyInt? ('-' :: ds) = some (-(decValue ds : Int)) := by
  simp only [pyInt?]
  have hws : ∀ c ∈ ('-' :: ds), c.isWhitespace = false := by
    intro c hc
    rcases List.mem_cons.mp hc with he | hm
    · rw [he]; decide
    · exact digit_not_ws c (h c hm)
  rw [trimWs_no_ws _ hws]
  dsimp only
  rw [if_pos rfl, pyDigits?_digits ds hne h]
  rfl

/-- Character list of `"step[" ++ mid ++ "]"`. -/
theorem toList_step_wrap (mid : String) :
    ("step[" ++ mid ++ "]").toList
      = "step[".toList ++ (mid.toList ++ [']']) := by
  show ("step[" ++ mid ++ "]").data = _
  rw [String.data_append, String.data_append, List.append_assoc]
  rfl

/-- The first five characters of `"step[" ++ mid ++ "]"` are `step[`. -/
theorem take5_step_wrap (mid : String) :
    ("step[" ++ mid ++ "]").toList.take 5 = "step[".toList := by
  rw [toList_step_wrap]
  exact List.take_left' (by decide)

/-- The slice `[5:-1]` of `"step[" ++ mid ++ "]"` is `mid`. -/
theorem slice_step_wrap (mid : String) :
    (("step[" ++ mid ++ "]").toList.drop 5).dropLast = mid.toList := by
  rw [toList_step_wrap, List.drop_left' (by decide), List.dropLast_concat]

/-- `"step[" ++ mid ++ "]"` differs from any string not starting with
`step[`. -/
theorem step_wrap_ne (mid t : String)
    (ht : t.toList.take 5 = "step[".toList → False) :
    ¬ ("step[" ++ mid ++ "]") = t := by
  intro h
  apply ht
  rw [← h]
  exact take5_step_wrap mid

/-- C6: for `input_source = "step[<n>]"`, the resolver returns step `n`'s
recorded output (empty string when that record has no `output`) whenever
`0 ≤ n < len(step_results)`; it returns `initial_input` when the index is
out of range (too large, or negative), and when the bracketed text does not
parse as an integer. -/
theorem c6_step_reference (init : String) (prev : Option String)
    (rs : List CallResult) :
    (∀ (ds : List Char) (step : WorkflowStep),
      ds ≠ [] → (∀ c ∈ ds, c.isDigit = true) →
      step.input_source = .str ("step[" ++ String.mk ds ++ "]") →
      (∀ _ : decValue ds < rs.length,
        ∃ r, rs.get? (decValue ds) = some r ∧
          _get_step_input step init prev rs = r.output.getD "") ∧
      (rs.length ≤ decValue ds →
        _get_step_input step init prev rs = init)) ∧
    (∀ (s : String) (step : WorkflowStep),
      step.input_source = .str s →
      s.toList.take 5 = "step[".toList →
      pyInt? ((s.toList.drop 5).dropLast) = none →
      _get_step_input step init prev rs = init) ∧
    (∀ (ds : List Char) (step : WorkflowStep),
      ds ≠ [] → (∀ c ∈ ds, c.isDigit = true) → decValue ds ≠ 0 →
      step.input_source = .str ("step[" ++ String.mk ('-' :: ds) ++ "]") →
      _get_step_input step init prev rs = init) := by
  refine ⟨?_, ?_, ?_⟩
  · intro ds step hne hdig hsrc
    have hne1 : ¬ (("step[" ++ String.mk ds ++ "]") = "original") :=
      step_wrap_ne _ _ (by decide)
    have hne2 : ¬ (("step[" ++ String.mk ds ++ "]") = "previous") :=
      step_wrap_ne _ _ (by decide)
    have hmk : (String.mk ds).toList = ds := rfl
    constructor
    · intro hn
      refine ⟨rs.get ⟨decValue ds, hn⟩, List.get?_eq_get hn, ?_⟩
      · simp only [_get_step_input, hsrc]
        rw [if_neg hne1, if_neg hne2, if_pos (take5_step_wrap _),
          slice_step_wrap, hmk, pyInt?_digits ds hne hdig]
        dsimp only
        have hidx : ((decValue ds : Int)).toNat = decValue ds :=
          Int.toNat_natCast _
        have hcond : (0 : Int) ≤ (decValue ds : Int) ∧
            ((decValue ds : Int)).toNat < rs.length :=
          ⟨Int.natCast_nonneg _, by rw [hidx]; exact hn⟩
        rw [dif_pos hcond]
        simp only [hidx]
    · intro hge
      simp only [_get_step_input, hsrc]
      rw [if_neg hne1, if_neg hne2, if_pos (take5_step_wrap _),
        slice_step_wrap, hmk, pyInt?_digits ds hne hdig]
      dsimp only
      rw [dif_neg ?hne3]
      case hne3 =>
        intro hc
        rw [Int.toNat_natCast] at hc
        omega
  · intro s step hsrc htake hpy
    have hne1 : ¬ (s = "original") := by
      intro he
      rw [he] at htake
      exact absurd htake (by decide)
    have hne2 : ¬ (s = "previous") := by
      intro he
      rw [he] at htake
      exact absurd htake (by decide)
    simp only [_get_step_input, hsrc]
    rw [if_neg hne1, if_neg hne2, if_pos htake, hpy]
  · intro ds step hne hdig hnz hsrc
    have hne1 : ¬ (("step[" ++ String.mk ('-' :: ds) ++ "]") = "original") :=
      step_wrap_ne _ _ (by decide)
    have hne2 : ¬ (("step[" ++ String.mk ('-' :: ds) ++ "]") = "previous") :=
      step_wrap_ne _ _ (by decide)
    have hmk : (String.mk ('-' :: ds)).toList = '-' :: ds := rfl
    simp only [_get_step_input, hsrc]
    rw [if_neg hne1, if_neg hne2, if_pos (take5_step_wrap _),
      slice_step_wrap, hmk, pyInt?_neg_digits ds hne hdig]
    dsimp only
    rw [dif_neg ?hne4]
    case hne4 =>
      intro hc
      have h1 := hc.1
      have h0 : (decValue ds : Int) = 0 := by omega
      exact hnz (by exact_mod_cast h0)

/-- C6, witness: the spec's round-trip — `step[0]` over two records returns
the first record's output `"A"`, and the out-of-range `step[5]` returns the
initial input `"X"`. -/
theorem c6_step_reference_witness :
    (∃ r, ([{ success := true, agent := "a", output := some "A" },
            { success := true, agent := "a",
              output := some "B" }] : List CallResult).get? 0 = some r ∧
      _get_step_input
        { name := "s", agent := "x",
          input_source := .str ("step[" ++ String.mk ['0'] ++ "]") }
        "X" (some "Y")
        [{ success := true, agent := "a", output := some "A" },
         { success := true, agent := "a", output := some "B" }]
        = r.output.getD "") ∧
    _get_step_input
      { name := "s", agent := "x",
        input_source := .str ("step[" ++ String.mk ['5'] ++ "]") }
      "X" (some "Y")
      [{ success := true, agent := "a", output := some "A" },
       { success := true, agent := "a", output := some "B" }]
      = "X" := by
  constructor
  · exact ((c6_step_reference "X" (some "Y")
      [{ success := true, agent := "a", output := some "A" },
       { success := true, agent := "a", output := some "B" }]).1
      ['0'] _ (by decide) (by decide) rfl).1 (by decide)
  · exact ((c6_step_reference "X" (some "Y")
      [{ success := true, agent := "a", output := some "A" },
       { success := true, agent := "a", output := some "B" }]).1
      ['5'] _ (by decide) (by decide) rfl).2 (by decide)

end Orchestrator
